import Mathlib

/-!
Verification of the word-chain generation server (src/server/index.ts).

The server exposes one generation endpoint. Its pipeline is:
fetchDatamuse (query the external lexicon, filter and normalize raw candidates),
generateWordChain (seed-then-extend random walk with a bounded attempts
counter, falling back to a fixed table on failure), and the fallbackChains
table itself.

Randomness (Math.random, a real number in [0,1)) is modelled by rational
parameters drawn from [0,1); each indexing expression
Math.floor(Math.random() * len) becomes jsRandIdx r len.
The external lexicon is modelled as a function from the queried word to a
response, where a transport error, non-success body or malformed JSON is an
Except.error, and a JSON array is a list of optional word fields (an item
whose word field is absent or not a string is modelled as none).
-/

namespace WordChainGame

/-! ### Characters and strings (ASCII behavior of the JS string operations) -/

/-- the character class [a-z]. -/
def isLowerAZ (c : Char) : Bool := 'a' ≤ c && c ≤ 'z'

/-- the character class [A-Z]. -/
def isUpperAZ (c : Char) : Bool := 'A' ≤ c && c ≤ 'Z'

/-- the character class [A-Za-z], i.e. the regex /^[a-z]+$/i applied per character. -/
def isAlphaAZ (c : Char) : Bool := isLowerAZ c || isUpperAZ c

/-- JS regex test /^[a-z]+$/i : nonempty and every character alphabetic.
JS truthiness of the string (excluding the empty string) is subsumed:
an empty string also fails the regex. -/
def alphaTest (w : String) : Bool := !w.data.isEmpty && w.data.all isAlphaAZ

/-- the length filter of fetchDatamuse: w.length >= 3 && w.length <= 12. -/
def lengthOk (w : String) : Bool := 3 ≤ w.length && w.length ≤ 12

/-- JS w.charAt(0).toUpperCase() + w.slice(1).toLowerCase(); on ASCII input
Char.toUpper and Char.toLower coincide with the JS case maps. -/
def titleCase (w : String) : String :=
  match w.data with
  | [] => ""
  | c :: cs => ⟨c.toUpper :: cs.map Char.toLower⟩

/-- JS w.toLowerCase() on ASCII, used to state case-insensitive equality. -/
def jsLower (w : String) : String := ⟨w.data.map Char.toLower⟩

/-- the regex ^[A-Z][a-z]+$ of the specification: one capital letter followed
by at least one lower-case letter. -/
def chainWordOk (w : String) : Bool :=
  match w.data with
  | [] => false
  | c :: cs => isUpperAZ c && !cs.isEmpty && cs.all isLowerAZ

/-! ### fetchDatamuse -/

/-- The resolved value of the JS fetch call: the HTTP status and the result
of response.json() followed by the array operations — Except.error models a
body on which .json() or data.map throws (non-JSON text, or JSON that is not
an array); Except.ok models a JSON array whose items carry an optional word
string (an item without a word string field is none). -/
structure HttpResponse where
  status : Nat
  jsonBody : Except Unit (List (Option String))

/-- A lexicon interaction: Except.error models a rejected fetch (transport
error); Except.ok a resolved response, whatever its status. -/
def LexResponse : Type := Except Unit HttpResponse

/-- fetchDatamuse of src/server/index.ts:12-32, given the (already awaited)
interaction for the queried word. The JS pipeline
data.map(item => item.word).filter(w => w && /^[a-z]+$/i.test(w))
.filter(w => w.length >= 3 && w.length <= 12)
.map(w => w.charAt(0).toUpperCase() + w.slice(1).toLowerCase()).slice(0, 15)
is rendered stepwise; the catch converts every thrown error to []. The
response status is never consulted, exactly as in the source. -/
def fetchDatamuse (resp : LexResponse) : List String :=
  match resp with
  | Except.error _ => []
  | Except.ok r =>
      match r.jsonBody with
      | Except.error _ => []
      | Except.ok data =>
          (((((data.filterMap id).filter alphaTest).filter lengthOk).map titleCase).take 15)

/-- the filtering pipeline of fetchDatamuse before the .slice(0, 15)
truncation: validity filtering followed by normalization. -/
def validNorm (data : List (Option String)) : List String :=
  (((data.filterMap id).filter alphaTest).filter lengthOk).map titleCase

/-- the composition actually run per loop iteration: fetchDatamuse followed
by the already-used exclusion of src/server/index.ts:63. -/
def candidateStage (resp : LexResponse) (chain : List String) : List String :=
  (fetchDatamuse resp).filter (fun w => !(chain.contains w))

/-! ### Randomness -/

/-- JS Math.floor(r * len) for r in [0,1), the index expression used for
every random selection in the server. -/
def jsRandIdx (r : ℚ) (n : Nat) : Nat := (⌊r * (n : ℚ)⌋).toNat

/-- a random source for one request: the response of the lexicon for each
queried word, the Math.random() draw for the seed, the draw for the k-th
candidate pick, and the draw for the fallback selection. -/
structure Env where
  lexicon : String → LexResponse
  seedR : ℚ
  pickR : Nat → ℚ
  fallbackR : ℚ

/-- validity of the random draws: Math.random() always lies in [0,1). -/
def Env.Valid (env : Env) : Prop :=
  0 ≤ env.seedR ∧ env.seedR < 1 ∧ (∀ k, 0 ≤ env.pickR k ∧ env.pickR k < 1) ∧
    0 ≤ env.fallbackR ∧ env.fallbackR < 1

/-! ### generateWordChain -/

/-- the seedWords table, src/server/index.ts:39-42. -/
def seedWords : List String :=
  ["Bird", "Fire", "Snow", "Sun", "Water", "Moon", "Star", "Rock",
   "Time", "Book", "Light", "Tree", "Glass", "Paper", "Ice", "Wind"]

/-- the fallbackChains table, src/server/index.ts:84-165. -/
def fallbackChains : List (List String) :=
  [["Bird", "Watching", "Party", "Animal", "Shelter", "Home"],
   ["Snow", "Ball", "Park", "Bench", "Press", "Release"],
   ["Sun", "Flower", "Pot", "Luck", "Dragon", "Fly"],
   ["Fire", "Truck", "Stop", "Light", "House", "Keeper"],
   ["Time", "Machine", "Gun", "Powder", "Room", "Service"],
   ["Book", "Mark", "Down", "Town", "Hall", "Pass"],
   ["Water", "Fall", "Out", "Side", "Walk", "Away"],
   ["Star", "Fish", "Bowl", "Game", "Plan", "Ahead"],
   ["Rock", "Star", "Light", "Weight", "Loss", "Prevention"],
   ["Moon", "Light", "Speed", "Dial", "Tone", "Deaf"]]

/-- JS chain[chain.length - 1]; the chain is never empty when it is read. -/
def lastWordD (chain : List String) : String := chain.getLastD ""

/-- the while loop of generateWordChain, src/server/index.ts:50-70, with the
attempts counter as structural fuel and an instrumented count of lexicon
calls. Each iteration queries the lexicon for the last word, breaks on an
empty candidate list, filters out words already in the chain, breaks if
nothing is left, and otherwise appends a uniformly chosen unused candidate. -/
def buildLoop (env : Env) : Nat → Nat → List String → List String × Nat
  | 0, calls, chain => (chain, calls)
  | fuel + 1, calls, chain =>
      if 6 ≤ chain.length then (chain, calls)
      else
        let candidates := fetchDatamuse (env.lexicon (lastWordD chain))
        if candidates.isEmpty then (chain, calls + 1)
        else
          let unused := candidates.filter (fun w => !(chain.contains w))
          if unused.isEmpty then (chain, calls + 1)
          else
            buildLoop env fuel (calls + 1)
              (chain ++ [unused.getD (jsRandIdx (env.pickR calls) unused.length) ""])

/-- generateWordChain, src/server/index.ts:35-80, additionally reporting how
many lexicon lookups were made. The chain starts from a uniformly chosen
seed word, is extended by the loop with an attempts budget of 20, and is
replaced by a uniformly chosen fallback chain when it ends shorter
than 6 words. -/
def generateWordChainCalls (env : Env) : List String × Nat :=
  let firstWord := seedWords.getD (jsRandIdx env.seedR seedWords.length) ""
  let res := buildLoop env 20 0 [firstWord]
  (if res.1.length < 6 then
     fallbackChains.getD (jsRandIdx env.fallbackR fallbackChains.length) []
   else res.1, res.2)

/-- the chain returned to the /api/chain handler. -/
def generateWordChain (env : Env) : List String := (generateWordChainCalls env).1

/-- the fallback selection on its own:
fallbackChains[Math.floor(Math.random() * fallbackChains.length)]. -/
def randomChain (r : ℚ) : List String :=
  fallbackChains.getD (jsRandIdx r fallbackChains.length) []

/-! ### The state visible to two sequential requests -/

/-- the module-level tables a request handler can see; the code declares both
as const and never writes to them. -/
structure ServerState where
  seeds : List String
  fallbacks : List (List String)

/-- generateWordChain as a state-passing function over the module tables, for
the frame property: the returned state is the one the call started from,
because no statement of generateWordChain assigns to either table. -/
def generateWordChainSt (s : ServerState) (env : Env) : List String × ServerState :=
  let firstWord := s.seeds.getD (jsRandIdx env.seedR s.seeds.length) ""
  let res := buildLoop env 20 0 [firstWord]
  (if res.1.length < 6 then
     s.fallbacks.getD (jsRandIdx env.fallbackR s.fallbacks.length) []
   else res.1, s)

/-- the module state as initialized at load time. -/
def initState : ServerState := ⟨seedWords, fallbackChains⟩

/-- the invariant the extend loop preserves: nonempty, at most 6 words, no
exact duplicate, every word chain-shaped. -/
def GoodChain (chain : List String) : Prop :=
  chain ≠ [] ∧ chain.length ≤ 6 ∧ chain.Nodup ∧ ∀ w ∈ chain, chainWordOk w = true

/-- a request whose every lexicon lookup fails in transport and whose random
draws are all 0: a concrete environment used to instantiate the theorems. -/
def envErr : Env := ⟨fun _ => Except.error (), 0, fun _ => 0, 0⟩

/-- Modelled from the words of the specification, for comparison only (not
from the source): the filtering order the spec asserts, where the truncation
to the first 15 entries comes after all filtering steps, the already-used
exclusion included. -/
def specTruncateLast (data : List (Option String)) (chain : List String) : List String :=
  ((validNorm data).filter (fun w => !(chain.contains w))).take 15

/-! ### Character lemmas: the ASCII case maps on the classes [a-z] and [A-Z] -/

theorem char_toNat_ofNat {n : Nat} (h : n < 55296) : (Char.ofNat n).toNat = n := by
  have hv : n.isValidChar := Or.inl h
  simp [Char.ofNat, hv, Char.ofNatAux, Char.toNat, UInt32.toNat, BitVec.toNat_ofNatLt]

theorem char_eq_of_toNat_eq {a b : Char} (h : a.toNat = b.toNat) : a = b := by
  have h2 := congrArg Char.ofNat h
  rwa [Char.ofNat_toNat, Char.ofNat_toNat] at h2

theorem isLowerAZ_iff {c : Char} : isLowerAZ c = true ↔ 97 ≤ c.toNat ∧ c.toNat ≤ 122 := by
  simp only [isLowerAZ, Bool.and_eq_true, decide_eq_true_eq]
  exact ⟨fun ⟨h1, h2⟩ => ⟨h1, h2⟩, fun ⟨h1, h2⟩ => ⟨h1, h2⟩⟩

theorem isUpperAZ_iff {c : Char} : isUpperAZ c = true ↔ 65 ≤ c.toNat ∧ c.toNat ≤ 90 := by
  simp only [isUpperAZ, Bool.and_eq_true, decide_eq_true_eq]
  exact ⟨fun ⟨h1, h2⟩ => ⟨h1, h2⟩, fun ⟨h1, h2⟩ => ⟨h1, h2⟩⟩

theorem toUpper_toNat_of_lower {c : Char} (h1 : 97 ≤ c.toNat) (h2 : c.toNat ≤ 122) :
    c.toUpper.toNat = c.toNat - 32 := by
  unfold Char.toUpper
  rw [if_pos ⟨h1, h2⟩]
  exact char_toNat_ofNat (by omega)

theorem toUpper_of_not_lower {c : Char} (h : ¬(97 ≤ c.toNat ∧ c.toNat ≤ 122)) :
    c.toUpper = c := by
  unfold Char.toUpper
  rw [if_neg h]

theorem toLower_toNat_of_upper {c : Char} (h1 : 65 ≤ c.toNat) (h2 : c.toNat ≤ 90) :
    c.toLower.toNat = c.toNat + 32 := by
  unfold Char.toLower
  rw [if_pos ⟨h1, h2⟩]
  exact char_toNat_ofNat (by omega)

theorem toLower_of_not_upper {c : Char} (h : ¬(65 ≤ c.toNat ∧ c.toNat ≤ 90)) :
    c.toLower = c := by
  unfold Char.toLower
  rw [if_neg h]

theorem isUpperAZ_toUpper {c : Char} (h : isAlphaAZ c = true) : isUpperAZ c.toUpper = true := by
  rcases Bool.or_eq_true_iff.mp (by simpa [isAlphaAZ] using h) with hl | hu
  · obtain ⟨h1, h2⟩ := isLowerAZ_iff.mp hl
    rw [isUpperAZ_iff, toUpper_toNat_of_lower h1 h2]
    omega
  · obtain ⟨h1, h2⟩ := isUpperAZ_iff.mp hu
    rwa [toUpper_of_not_lower (by omega)]

theorem isLowerAZ_toLower {c : Char} (h : isAlphaAZ c = true) : isLowerAZ c.toLower = true := by
  rcases Bool.or_eq_true_iff.mp (by simpa [isAlphaAZ] using h) with hl | hu
  · obtain ⟨h1, h2⟩ := isLowerAZ_iff.mp hl
    rwa [toLower_of_not_upper (by omega)]
  · obtain ⟨h1, h2⟩ := isUpperAZ_iff.mp hu
    rw [isLowerAZ_iff, toLower_toNat_of_upper h1 h2]
    omega

theorem toLower_of_lower {c : Char} (h : isLowerAZ c = true) : c.toLower = c := by
  obtain ⟨h1, h2⟩ := isLowerAZ_iff.mp h
  exact toLower_of_not_upper (by omega)

theorem toLower_inj_upper {a b : Char} (ha : isUpperAZ a = true) (hb : isUpperAZ b = true)
    (h : a.toLower = b.toLower) : a = b := by
  obtain ⟨ha1, ha2⟩ := isUpperAZ_iff.mp ha
  obtain ⟨hb1, hb2⟩ := isUpperAZ_iff.mp hb
  have h2 := congrArg Char.toNat h
  rw [toLower_toNat_of_upper ha1 ha2, toLower_toNat_of_upper hb1 hb2] at h2
  exact char_eq_of_toNat_eq (by omega)

/-! ### String lemmas: normalized candidates match the chain-word shape -/

theorem alphaTest_elim {w : String} (h : alphaTest w = true) :
    w.data ≠ [] ∧ ∀ c ∈ w.data, isAlphaAZ c = true := by
  simp only [alphaTest, Bool.and_eq_true, Bool.not_eq_true', List.isEmpty_eq_false,
    List.all_eq_true] at h
  exact ⟨h.1, h.2⟩

theorem string_length_eq {w : String} : w.length = w.data.length := rfl

theorem titleCase_ok {w : String} (ha : alphaTest w = true) (hl : 3 ≤ w.length) :
    chainWordOk (titleCase w) = true := by
  obtain ⟨hne, hall⟩ := alphaTest_elim ha
  obtain ⟨c, cs, hw⟩ : ∃ c cs, w.data = c :: cs := by
    cases h : w.data with
    | nil => exact absurd h hne
    | cons c cs => exact ⟨c, cs, rfl⟩
  have hcs : cs ≠ [] := by
    rw [string_length_eq, hw] at hl
    intro hnil
    rw [hnil] at hl
    simp at hl
  rw [titleCase, hw]
  simp only [chainWordOk]
  rw [Bool.and_eq_true, Bool.and_eq_true]
  refine ⟨⟨?_, ?_⟩, ?_⟩
  · exact isUpperAZ_toUpper (hall c (by rw [hw]; exact List.mem_cons_self c cs))
  · simp only [Bool.not_eq_true', List.isEmpty_eq_false]
    intro hmapnil
    exact hcs (List.map_eq_nil_iff.mp hmapnil)
  · rw [List.all_map, List.all_eq_true]
    intro x hx
    exact isLowerAZ_toLower (hall x (by rw [hw]; exact List.mem_cons_of_mem c hx))

theorem chainWordOk_elim {w : String} (h : chainWordOk w = true) :
    ∃ c cs, w.data = c :: cs ∧ isUpperAZ c = true ∧ cs ≠ [] ∧ ∀ x ∈ cs, isLowerAZ x = true := by
  cases hw : w.data with
  | nil => rw [chainWordOk, hw] at h; exact absurd h (by simp)
  | cons c cs =>
      rw [chainWordOk, hw] at h
      simp only [Bool.and_eq_true, Bool.not_eq_true', List.isEmpty_eq_false,
        List.all_eq_true] at h
      exact ⟨c, cs, rfl, h.1.1, h.1.2, h.2⟩

theorem jsLower_inj {x y : String} (hx : chainWordOk x = true) (hy : chainWordOk y = true)
    (h : jsLower x = jsLower y) : x = y := by
  obtain ⟨a, as, hxd, hau, hane, haslow⟩ := chainWordOk_elim hx
  obtain ⟨b, bs, hyd, hbu, hbne, hbslow⟩ := chainWordOk_elim hy
  have hdata : x.data.map Char.toLower = y.data.map Char.toLower := by
    have := congrArg String.data h
    simpa [jsLower] using this
  rw [hxd, hyd] at hdata
  simp only [List.map_cons, List.cons.injEq] at hdata
  have has : as.map Char.toLower = as := by
    rw [List.map_congr_left (fun a ha => toLower_of_lower (haslow a ha))]
    exact List.map_id as
  have hbs : bs.map Char.toLower = bs := by
    rw [List.map_congr_left (fun a ha => toLower_of_lower (hbslow a ha))]
    exact List.map_id bs
  have htails : as = bs := by rw [← has, ← hbs]; exact hdata.2
  have hheads : a = b := toLower_inj_upper hau hbu hdata.1
  cases x with
  | mk xd =>
      cases y with
      | mk yd =>
          simp only at hxd hyd
          simp [hxd, hyd, hheads, htails]

/-- duplicate-freedom of exact strings upgrades to case-insensitive
duplicate-freedom on a list of chain-shaped words, because such words are a
canonical form for their own lower-casing. -/
theorem pairwise_jsLower {l : List String} (hok : ∀ w ∈ l, chainWordOk w = true)
    (hnd : l.Nodup) : l.Pairwise (fun a b => jsLower a ≠ jsLower b) := by
  induction l with
  | nil => exact List.Pairwise.nil
  | cons a t ih =>
      obtain ⟨hmem, ht⟩ := List.nodup_cons.mp hnd
      rw [List.pairwise_cons]
      constructor
      · intro b hb heq
        have hab : a = b :=
          jsLower_inj (hok a (List.mem_cons_self a t)) (hok b (List.mem_cons_of_mem a hb)) heq
        exact hmem (hab ▸ hb)
      · exact ih (fun w hw => hok w (List.mem_cons_of_mem a hw)) ht

theorem lengthOk_elim {w : String} (h : lengthOk w = true) :
    3 ≤ w.length ∧ w.length ≤ 12 := by
  simp only [lengthOk, Bool.and_eq_true, decide_eq_true_eq] at h
  exact h

/-- every word fetchDatamuse emits has the shape the chain needs. -/
theorem chainWordOk_of_mem_fetchDatamuse {resp : LexResponse} {w : String}
    (h : w ∈ fetchDatamuse resp) : chainWordOk w = true := by
  match resp with
  | Except.error _ => exact absurd h (by simp [fetchDatamuse])
  | Except.ok ⟨st, Except.error _⟩ => exact absurd h (by simp [fetchDatamuse])
  | Except.ok ⟨st, Except.ok data⟩ =>
      have h2 := List.mem_of_mem_take h
      obtain ⟨v, hv, rfl⟩ := List.mem_map.mp h2
      obtain ⟨hv2, hlen⟩ := List.mem_filter.mp hv
      obtain ⟨_, halpha⟩ := List.mem_filter.mp hv2
      exact titleCase_ok halpha (lengthOk_elim hlen).1

/-! ### Random index lemmas -/

theorem jsRandIdx_lt {r : ℚ} {n : Nat} (_h0 : 0 ≤ r) (h1 : r < 1) (hn : 0 < n) :
    jsRandIdx r n < n := by
  unfold jsRandIdx
  have hnq : (0:ℚ) < (n:ℚ) := by exact_mod_cast hn
  have h2 : r * (n:ℚ) < (n:ℚ) := by nlinarith
  have h3 : ⌊r * (n:ℚ)⌋ < (n : ℤ) := Int.floor_lt.mpr (by exact_mod_cast h2)
  omega

theorem jsRandIdx_zero (n : Nat) : jsRandIdx 0 n = 0 := by
  simp [jsRandIdx]

theorem getD_mem {α : Type} {l : List α} {n : Nat} {d : α} (h : n < l.length) :
    l.getD n d ∈ l := by
  rw [List.getD_eq_getElem?_getD, List.getElem?_eq_getElem h]
  exact List.getElem_mem h

/-! ### Loop lemmas -/

theorem buildLoop_good {env : Env} (hpick : ∀ k, 0 ≤ env.pickR k ∧ env.pickR k < 1) :
    ∀ fuel calls chain, GoodChain chain → GoodChain (buildLoop env fuel calls chain).1 := by
  intro fuel
  induction fuel with
  | zero => intro calls chain h; exact h
  | succ fuel ih =>
      intro calls chain h
      simp only [buildLoop]
      by_cases h6 : 6 ≤ chain.length
      · rw [if_pos h6]; exact h
      · rw [if_neg h6]
        by_cases he1 : (fetchDatamuse (env.lexicon (lastWordD chain))).isEmpty
        · rw [if_pos he1]; exact h
        · rw [if_neg he1]
          by_cases he2 :
              ((fetchDatamuse (env.lexicon (lastWordD chain))).filter
                (fun w => !(chain.contains w))).isEmpty
          · rw [if_pos he2]; exact h
          · rw [if_neg he2]
            apply ih
            set unused :=
              (fetchDatamuse (env.lexicon (lastWordD chain))).filter
                (fun w => !(chain.contains w)) with hu
            have hune : unused ≠ [] := by
              intro hnil
              rw [hnil] at he2
              simp at he2
            have hulen : 0 < unused.length := List.length_pos.mpr hune
            have hidx : jsRandIdx (env.pickR calls) unused.length < unused.length :=
              jsRandIdx_lt (hpick calls).1 (hpick calls).2 hulen
            set next := unused.getD (jsRandIdx (env.pickR calls) unused.length) "" with hn
            have hnext_mem : next ∈ unused := getD_mem hidx
            obtain ⟨hnext_cand, hnext_unused⟩ := List.mem_filter.mp hnext_mem
            have hnext_ok : chainWordOk next = true :=
              chainWordOk_of_mem_fetchDatamuse hnext_cand
            have hnext_notmem : next ∉ chain := by
              simpa using hnext_unused
            obtain ⟨hne, hlen, hnd, hok⟩ := h
            refine ⟨by simp, ?_, ?_, ?_⟩
            · rw [List.length_append]
              simp only [List.length_cons, List.length_nil]
              omega
            · rw [← List.concat_eq_append]
              exact List.Nodup.concat hnext_notmem hnd
            · intro w hw
              rcases List.mem_append.mp hw with hw1 | hw2
              · exact hok w hw1
              · rw [List.mem_singleton.mp hw2]
                exact hnext_ok

theorem buildLoop_head {env : Env} :
    ∀ fuel calls chain, chain ≠ [] →
      (buildLoop env fuel calls chain).1.head? = chain.head? := by
  intro fuel
  induction fuel with
  | zero => intro calls chain _; rfl
  | succ fuel ih =>
      intro calls chain hne
      simp only [buildLoop]
      by_cases h6 : 6 ≤ chain.length
      · rw [if_pos h6]
      · rw [if_neg h6]
        by_cases he1 : (fetchDatamuse (env.lexicon (lastWordD chain))).isEmpty
        · rw [if_pos he1]
        · rw [if_neg he1]
          by_cases he2 :
              ((fetchDatamuse (env.lexicon (lastWordD chain))).filter
                (fun w => !(chain.contains w))).isEmpty
          · rw [if_pos he2]
          · rw [if_neg he2]
            cases chain with
            | nil => exact absurd rfl hne
            | cons a t =>
                rw [ih _ _ (by simp)]
                rfl

theorem buildLoop_calls {env : Env} :
    ∀ fuel calls chain, (buildLoop env fuel calls chain).2 ≤ calls + (6 - chain.length) := by
  intro fuel
  induction fuel with
  | zero => intro calls chain; exact Nat.le_add_right calls _
  | succ fuel ih =>
      intro calls chain
      simp only [buildLoop]
      by_cases h6 : 6 ≤ chain.length
      · rw [if_pos h6]; exact Nat.le_add_right calls _
      · rw [if_neg h6]
        by_cases he1 : (fetchDatamuse (env.lexicon (lastWordD chain))).isEmpty
        · rw [if_pos he1]; omega
        · rw [if_neg he1]
          by_cases he2 :
              ((fetchDatamuse (env.lexicon (lastWordD chain))).filter
                (fun w => !(chain.contains w))).isEmpty
          · rw [if_pos he2]; omega
          · rw [if_neg he2]
            have h2 := ih (calls + 1)
              (chain ++ [((fetchDatamuse (env.lexicon (lastWordD chain))).filter
                (fun w => !(chain.contains w))).getD
                  (jsRandIdx (env.pickR calls)
                    ((fetchDatamuse (env.lexicon (lastWordD chain))).filter
                      (fun w => !(chain.contains w))).length) ""])
            rw [List.length_append] at h2
            simp only [List.length_cons, List.length_nil] at h2
            omega

theorem buildLoop_fuel {env : Env} :
    ∀ fuel₁ fuel₂ calls chain, 6 - chain.length ≤ fuel₁ → 6 - chain.length ≤ fuel₂ →
      buildLoop env fuel₁ calls chain = buildLoop env fuel₂ calls chain := by
  intro fuel₁
  induction fuel₁ with
  | zero =>
      intro fuel₂ calls chain h1 _
      have h6 : 6 ≤ chain.length := by omega
      cases fuel₂ with
      | zero => rfl
      | succ fuel₂ =>
          show (chain, calls) = buildLoop env (fuel₂ + 1) calls chain
          simp only [buildLoop]
          rw [if_pos h6]
  | succ fuel₁ ih =>
      intro fuel₂ calls chain h1 h2
      by_cases h6 : 6 ≤ chain.length
      · cases fuel₂ with
        | zero =>
            show buildLoop env (fuel₁ + 1) calls chain = (chain, calls)
            simp only [buildLoop]
            rw [if_pos h6]
        | succ fuel₂ =>
            simp only [buildLoop]
            rw [if_pos h6, if_pos h6]
      · cases fuel₂ with
        | zero => omega
        | succ fuel₂ =>
            simp only [buildLoop]
            rw [if_neg h6, if_neg h6]
            by_cases he1 : (fetchDatamuse (env.lexicon (lastWordD chain))).isEmpty
            · rw [if_pos he1, if_pos he1]
            · rw [if_neg he1, if_neg he1]
              by_cases he2 :
                  ((fetchDatamuse (env.lexicon (lastWordD chain))).filter
                    (fun w => !(chain.contains w))).isEmpty
              · rw [if_pos he2, if_pos he2]
              · rw [if_neg he2, if_neg he2]
                apply ih
                · rw [List.length_append]
                  simp only [List.length_cons, List.length_nil]
                  omega
                · rw [List.length_append]
                  simp only [List.length_cons, List.length_nil]
                  omega

theorem alpha_of_lower {c : Char} (h : isLowerAZ c = true) : isAlphaAZ c = true := by
  simp [isAlphaAZ, h]

theorem alpha_of_upper {c : Char} (h : isUpperAZ c = true) : isAlphaAZ c = true := by
  simp [isAlphaAZ, h]

theorem envErr_valid : Env.Valid envErr := by
  simp only [Env.Valid, envErr]
  norm_num

/-! ### Claim theorems -/

/-- Claim C3, counterexample: on the raw batch
[fly, FLY, a, verylongwordthatistoolong, two-words, Bird] with Bird already
used, the filtering stage emits the entry Fly twice, not at most once:
nothing in the pipeline deduplicates within one candidate batch. -/
theorem c3_filter_counterexample :
    ¬((candidateStage (Except.ok ⟨200, Except.ok [some "fly", some "FLY", some "a",
        some "verylongwordthatistoolong", some "two-words", some "Bird"]⟩)
          ["Bird"]).count "Fly" ≤ 1) := by
  decide

/-- Claim C3, amended: on that raw batch the stage excludes a (too short),
verylongwordthatistoolong (too long), two-words (non-alphabetic) and Bird
(already used), and retains Fly — once per raw occurrence, so the output is
exactly [Fly, Fly]; deduplication happens only against the chain, not within
the batch. -/
theorem c3_filter_amended :
    candidateStage (Except.ok ⟨200, Except.ok [some "fly", some "FLY", some "a",
        some "verylongwordthatistoolong", some "two-words", some "Bird"]⟩) ["Bird"]
      = ["Fly", "Fly"] := by
  decide

/-- Claim C5, counterexample: the response status is never consulted, so a
non-success response whose body still parses to a JSON array is processed
normally instead of being converted to the empty sequence. -/
theorem c5_status_counterexample :
    fetchDatamuse (Except.ok ⟨500, Except.ok [some "cat"]⟩) = ["Cat"]
    ∧ fetchDatamuse (Except.ok ⟨500, Except.ok [some "cat"]⟩) ≠ [] := by
  decide

/-- Claim C5, amended: fetchDatamuse never raises past its boundary; any
rejected fetch and any body on which parsing or the array processing throws
yields the empty sequence; the status itself is ignored, so the result
depends only on the body. -/
theorem c5_error_policy_amended :
    (∀ e : Unit, fetchDatamuse (Except.error e) = [])
    ∧ (∀ (st : Nat) (e : Unit), fetchDatamuse (Except.ok ⟨st, Except.error e⟩) = [])
    ∧ (∀ (st st2 : Nat) (body : Except Unit (List (Option String))),
        fetchDatamuse (Except.ok ⟨st, body⟩) = fetchDatamuse (Except.ok ⟨st2, body⟩)) := by
  refine ⟨fun e => rfl, fun st e => rfl, fun st st2 body => ?_⟩
  cases body <;> rfl

/-- Claim C6, counterexample: with fifteen raw copies of bird followed by
cat, and Bird already used, the code truncates to the first 15 before the
already-used exclusion and returns nothing, while truncating after all
filtering (the order the claim states) would return [Cat]. -/
theorem c6_truncation_counterexample :
    ¬(candidateStage (Except.ok ⟨200, Except.ok
          (List.replicate 15 (some "bird") ++ [some "cat"])⟩) ["Bird"]
        = specTruncateLast (List.replicate 15 (some "bird") ++ [some "cat"]) ["Bird"]) := by
  decide

/-- Claim C6, amended: the filtered candidate sequence has length at most
15 and is an order-preserving subsequence of the normalized raw inputs, but
the truncation to 15 comes after the validity filter and before the
already-used exclusion: the output is the already-used-free part of the
first 15 validity survivors. -/
theorem c6_filter_shape_amended :
    ∀ (st : Nat) (data : List (Option String)) (chain : List String),
      (candidateStage (Except.ok ⟨st, Except.ok data⟩) chain).length ≤ 15
      ∧ (candidateStage (Except.ok ⟨st, Except.ok data⟩) chain).Sublist
          ((data.filterMap id).map titleCase)
      ∧ candidateStage (Except.ok ⟨st, Except.ok data⟩) chain
          = ((validNorm data).take 15).filter (fun w => !(chain.contains w)) := by
  intro st data chain
  have h0 : fetchDatamuse (Except.ok ⟨st, Except.ok data⟩) = (validNorm data).take 15 := rfl
  refine ⟨?_, ?_, rfl⟩
  · refine le_trans (List.length_filter_le _ _) ?_
    rw [h0, List.length_take]
    exact Nat.min_le_left _ _
  · refine List.Sublist.trans (List.filter_sublist _) ?_
    rw [h0]
    refine List.Sublist.trans (List.take_sublist _ _) ?_
    have h1 : (((data.filterMap id).filter alphaTest).filter lengthOk).Sublist
        (data.filterMap id) :=
      List.Sublist.trans (List.filter_sublist _) (List.filter_sublist _)
    exact h1.map titleCase

/-- Claim C7, counterexample: a raw candidate surrounded by whitespace is
not retained in Title-case form: there is no trim, so it fails the
alphabetic validity test and is excluded. -/
theorem c7_trim_counterexample :
    ¬("Fly" ∈ fetchDatamuse (Except.ok ⟨200, Except.ok [some " fly "]⟩)) := by
  decide

/-- Claim C7, amended: normalization does not trim; it upper-cases the first
character and lower-cases the rest, and runs only after the alphabetic
validity test, so a whitespace-surrounded word is excluded while the same
word without whitespace is retained as its Title-case form; no emitted word
ever carries a non-alphabetic character. -/
theorem c7_normalization_amended :
    fetchDatamuse (Except.ok ⟨200, Except.ok [some " fly "]⟩) = []
    ∧ fetchDatamuse (Except.ok ⟨200, Except.ok [some "fly"]⟩) = ["Fly"]
    ∧ ∀ (resp : LexResponse) (w : String), w ∈ fetchDatamuse resp →
        ∀ c ∈ w.data, isAlphaAZ c = true := by
  refine ⟨by decide, by decide, ?_⟩
  intro resp w hw c hc
  obtain ⟨a, as, hd, hau, _, haslow⟩ := chainWordOk_elim (chainWordOk_of_mem_fetchDatamuse hw)
  rw [hd] at hc
  rcases List.mem_cons.mp hc with hc1 | hc2
  · rw [hc1]
    exact alpha_of_upper hau
  · exact alpha_of_lower (haslow c hc2)

/-- Claim C7, witness for the amended theorem: the letter F of the retained
word Fly is alphabetic. -/
theorem c7_normalization_amended_witness : isAlphaAZ 'F' = true :=
  c7_normalization_amended.2.2 (Except.ok ⟨200, Except.ok [some "fly"]⟩) "Fly"
    (by decide) 'F' (by decide)

/-- Claim C4: the fallback table holds at least 10 chains of exactly 6
chain-shaped words each; every draw from a valid random value lands in the
table; every entry is reachable; and selection is uniform in the sense that
the set of random values mapped to slot i is exactly the interval
[i/n, (i+1)/n), the same length for every slot. -/
theorem c4_fallback_repository :
    10 ≤ fallbackChains.length
    ∧ (∀ c ∈ fallbackChains, c.length = 6 ∧ ∀ w ∈ c, chainWordOk w = true)
    ∧ (∀ r : ℚ, 0 ≤ r → r < 1 → randomChain r ∈ fallbackChains)
    ∧ (∀ i : Nat, i < fallbackChains.length →
        ∃ r : ℚ, 0 ≤ r ∧ r < 1 ∧ randomChain r = fallbackChains.getD i [])
    ∧ (∀ i : Nat, i < fallbackChains.length →
        {r : ℚ | 0 ≤ r ∧ r < 1 ∧ jsRandIdx r fallbackChains.length = i}
          = Set.Ico ((i : ℚ) / (fallbackChains.length : ℚ))
              (((i : ℚ) + 1) / (fallbackChains.length : ℚ))) := by
  have hlen : fallbackChains.length = 10 := rfl
  refine ⟨by decide, by decide, ?_, ?_, ?_⟩
  · intro r h0 h1
    exact getD_mem (jsRandIdx_lt h0 h1 (by decide))
  · intro i hi
    rw [hlen] at hi
    have hiq : (i : ℚ) < 10 := by exact_mod_cast hi
    refine ⟨(i : ℚ) / 10, by positivity, ?_, ?_⟩
    · rw [div_lt_one (by norm_num)]
      exact hiq
    · unfold randomChain jsRandIdx
      rw [hlen]
      have hmul : (i : ℚ) / 10 * ((10 : Nat) : ℚ) = (i : ℚ) := by
        push_cast
        field_simp
      rw [hmul, Int.floor_natCast, Int.toNat_natCast]
  · intro i hi
    rw [hlen] at hi
    ext r
    simp only [Set.mem_setOf_eq, Set.mem_Ico, hlen]
    constructor
    · rintro ⟨h0, h1, hidx⟩
      unfold jsRandIdx at hidx
      have hnn : (0 : ℤ) ≤ ⌊r * ((10 : Nat) : ℚ)⌋ := by
        refine Int.floor_nonneg.mpr ?_
        positivity
      have hfl : ⌊r * ((10 : Nat) : ℚ)⌋ = (i : ℤ) := by omega
      obtain ⟨hle, hlt⟩ := Int.floor_eq_iff.mp hfl
      push_cast at hle hlt
      constructor
      · rw [div_le_iff₀ (by norm_num : (0:ℚ) < ((10:Nat):ℚ))]
        exact hle
      · rw [lt_div_iff₀ (by norm_num : (0:ℚ) < ((10:Nat):ℚ))]
        exact hlt
    · rintro ⟨hle, hlt⟩
      have h10 : (0:ℚ) < ((10:Nat):ℚ) := by norm_num
      have hle2 : (i : ℚ) ≤ r * ((10:Nat):ℚ) := (div_le_iff₀ h10).mp hle
      have hlt2 : r * ((10:Nat):ℚ) < (i : ℚ) + 1 := (lt_div_iff₀ h10).mp hlt
      have h0 : 0 ≤ r := le_trans (by positivity) hle
      have h1 : r < 1 := by
        refine lt_of_lt_of_le hlt ?_
        rw [div_le_one h10]
        push_cast
        exact_mod_cast Nat.succ_le_of_lt hi
      refine ⟨h0, h1, ?_⟩
      unfold jsRandIdx
      have hfl : ⌊r * ((10 : Nat) : ℚ)⌋ = (i : ℤ) := by
        rw [Int.floor_eq_iff]
        push_cast
        push_cast at hle2 hlt2
        exact ⟨hle2, hlt2⟩
      rw [hfl, Int.toNat_natCast]

/-- Claim C4, witness: the draw 0 returns a chain of the table. -/
theorem c4_fallback_repository_witness : randomChain 0 ∈ fallbackChains :=
  c4_fallback_repository.2.2.1 0 (le_refl 0) (by norm_num)

/-- Claim C8: the handler mutates nothing shared: a call returns the module
tables exactly as it found them, a second sequential call starting from the
state the first returned produces the same chain given the same random and
lexicon inputs, and running against the load-time state is the same
computation as the stateless model. -/
theorem c8_no_shared_state (s : ServerState) (env : Env) :
    (generateWordChainSt s env).2 = s
    ∧ (generateWordChainSt ((generateWordChainSt s env).2) env).1
        = (generateWordChainSt s env).1
    ∧ (generateWordChainSt initState env).1 = generateWordChain env :=
  ⟨rfl, rfl, rfl⟩

/-- Claim C9: with any lexicon and any random draws the loop makes at most 5
lookups from a fresh one-word chain, and the budget of 20 is interchangeable
with a budget of 5 — the attempts budget can never be the reason the loop
stops. -/
theorem c9_attempts_budget (env : Env) (w : String) :
    (buildLoop env 20 0 [w]).2 ≤ 5
    ∧ buildLoop env 20 0 [w] = buildLoop env 5 0 [w]
    ∧ (generateWordChainCalls env).2 ≤ 5 := by
  refine ⟨?_, ?_, ?_⟩
  · have h := @buildLoop_calls env 20 0 [w]
    simpa using h
  · exact buildLoop_fuel 20 5 0 [w] (by simp) (by simp)
  · show (buildLoop env 20 0
        [seedWords.getD (jsRandIdx env.seedR seedWords.length) ""]).2 ≤ 5
    have h := @buildLoop_calls env 20 0
      [seedWords.getD (jsRandIdx env.seedR seedWords.length) ""]
    simpa using h

/-- one loop step on a dead end: when the unused-candidate set is empty
(whether because the lookup itself was empty or because everything was
already used), the loop returns at once with one more lookup counted. -/
theorem buildLoop_deadEnd (env : Env) (fuel calls : Nat) (chain : List String)
    (hlen : chain.length < 6)
    (hfil : (fetchDatamuse (env.lexicon (lastWordD chain))).filter
        (fun w => !(chain.contains w)) = []) :
    buildLoop env (fuel + 1) calls chain = (chain, calls + 1) := by
  simp only [buildLoop]
  rw [if_neg (not_le.mpr hlen)]
  by_cases he1 : (fetchDatamuse (env.lexicon (lastWordD chain))).isEmpty
  · rw [if_pos he1]
  · rw [if_neg he1, if_pos (by rw [hfil]; rfl)]

/-- Claim C2: an empty filtered candidate set ends the extend loop at once
with no further lookup; a loop result shorter than 6 words is discarded for
a complete fallback chain while a 6-word result is returned as-is; and with
a lexicon that always returns the empty sequence the build makes exactly one
lookup and returns a fallback chain. -/
theorem c2_deadEnd_policy :
    (∀ (env : Env) (fuel calls : Nat) (chain : List String),
        chain.length < 6 →
        (fetchDatamuse (env.lexicon (lastWordD chain))).filter
            (fun w => !(chain.contains w)) = [] →
        buildLoop env (fuel + 1) calls chain = (chain, calls + 1))
    ∧ (∀ env : Env, 0 ≤ env.fallbackR → env.fallbackR < 1 →
        ((buildLoop env 20 0
            [seedWords.getD (jsRandIdx env.seedR seedWords.length) ""]).1.length < 6 →
          generateWordChain env ∈ fallbackChains)
        ∧ (6 ≤ (buildLoop env 20 0
            [seedWords.getD (jsRandIdx env.seedR seedWords.length) ""]).1.length →
          generateWordChain env
            = (buildLoop env 20 0
                [seedWords.getD (jsRandIdx env.seedR seedWords.length) ""]).1))
    ∧ (∀ env : Env, (∀ w, fetchDatamuse (env.lexicon w) = []) →
        0 ≤ env.fallbackR → env.fallbackR < 1 →
        (generateWordChainCalls env).2 = 1 ∧ generateWordChain env ∈ fallbackChains) := by
  refine ⟨buildLoop_deadEnd, ?_, ?_⟩
  · intro env h0 h1
    constructor
    · intro hlt
      simp only [generateWordChain, generateWordChainCalls]
      rw [if_pos hlt]
      exact getD_mem (jsRandIdx_lt h0 h1 (by decide))
    · intro hge
      simp only [generateWordChain, generateWordChainCalls]
      rw [if_neg (not_lt.mpr hge)]
  · intro env hlex h0 h1
    have hstep : buildLoop env 20 0
        [seedWords.getD (jsRandIdx env.seedR seedWords.length) ""]
        = ([seedWords.getD (jsRandIdx env.seedR seedWords.length) ""], 1) :=
      buildLoop_deadEnd env 19 0 _ (by simp) (by rw [hlex]; rfl)
    constructor
    · show (buildLoop env 20 0
          [seedWords.getD (jsRandIdx env.seedR seedWords.length) ""]).2 = 1
      rw [hstep]
    · simp only [generateWordChain, generateWordChainCalls]
      rw [hstep]
      rw [if_pos (by simp)]
      exact getD_mem (jsRandIdx_lt h0 h1 (by decide))

/-- Claim C2, witness: against the always-failing lexicon with zero draws,
the build makes exactly one lookup and returns a table chain. -/
theorem c2_deadEnd_policy_witness :
    (generateWordChainCalls envErr).2 = 1 ∧ generateWordChain envErr ∈ fallbackChains :=
  c2_deadEnd_policy.2.2 envErr (fun _ => rfl) (le_refl 0) (by norm_num [envErr])

/-- Claim C10: whichever way the request goes — dynamic walk or fallback —
the first word of the returned chain belongs to the 16-word seed table. -/
theorem c10_first_word_seed (env : Env) (h : env.Valid) :
    (generateWordChain env).headD "" ∈ seedWords := by
  obtain ⟨hs0, hs1, _, hf0, hf1⟩ := h
  simp only [generateWordChain, generateWordChainCalls]
  by_cases hlt : (buildLoop env 20 0
      [seedWords.getD (jsRandIdx env.seedR seedWords.length) ""]).1.length < 6
  · rw [if_pos hlt]
    have hmem : fallbackChains.getD (jsRandIdx env.fallbackR fallbackChains.length) []
        ∈ fallbackChains :=
      getD_mem (jsRandIdx_lt hf0 hf1 (by decide))
    have hall : ∀ c ∈ fallbackChains, c.headD "" ∈ seedWords := by decide
    exact hall _ hmem
  · rw [if_neg hlt]
    have hh := @buildLoop_head env 20 0
      [seedWords.getD (jsRandIdx env.seedR seedWords.length) ""] (by simp)
    rw [List.headD_eq_head?_getD, hh]
    simp only [List.head?_cons, Option.getD_some]
    exact getD_mem (jsRandIdx_lt hs0 hs1 (by decide))

/-- Claim C10, witness: the always-failing lexicon with zero draws yields a
chain whose first word is a seed word. -/
theorem c10_first_word_seed_witness : (generateWordChain envErr).headD "" ∈ seedWords :=
  c10_first_word_seed envErr envErr_valid

/-- Claim C1: every chain the endpoint returns — dynamically built or drawn
from the fallback table — has exactly 6 words, each matching ^[A-Z][a-z]+$,
with no two words equal case-insensitively. -/
theorem c1_chain_valid (env : Env) (h : env.Valid) :
    (generateWordChain env).length = 6
    ∧ (∀ w ∈ generateWordChain env, chainWordOk w = true)
    ∧ (generateWordChain env).Pairwise (fun a b => jsLower a ≠ jsLower b) := by
  obtain ⟨hs0, hs1, hp, hf0, hf1⟩ := h
  have hseed : seedWords.getD (jsRandIdx env.seedR seedWords.length) "" ∈ seedWords :=
    getD_mem (jsRandIdx_lt hs0 hs1 (by decide))
  have hgood : GoodChain [seedWords.getD (jsRandIdx env.seedR seedWords.length) ""] := by
    refine ⟨by simp, by simp, List.nodup_singleton _, ?_⟩
    intro w hw
    rw [List.mem_singleton.mp hw]
    have hall : ∀ w ∈ seedWords, chainWordOk w = true := by decide
    exact hall _ hseed
  have hres := buildLoop_good hp 20 0 _ hgood
  simp only [generateWordChain, generateWordChainCalls]
  by_cases hlt : (buildLoop env 20 0
      [seedWords.getD (jsRandIdx env.seedR seedWords.length) ""]).1.length < 6
  · rw [if_pos hlt]
    have hmem : fallbackChains.getD (jsRandIdx env.fallbackR fallbackChains.length) []
        ∈ fallbackChains :=
      getD_mem (jsRandIdx_lt hf0 hf1 (by decide))
    have hall : ∀ c ∈ fallbackChains, c.length = 6 ∧ (∀ w ∈ c, chainWordOk w = true) ∧
        c.Pairwise (fun a b => jsLower a ≠ jsLower b) := by decide
    exact hall _ hmem
  · rw [if_neg hlt]
    obtain ⟨_, hlen, hnd, hok⟩ := hres
    exact ⟨by omega, hok, pairwise_jsLower hok hnd⟩

/-- Claim C1, witness: the always-failing lexicon with zero draws yields a
valid chain. -/
theorem c1_chain_valid_witness :
    (generateWordChain envErr).length = 6
    ∧ (∀ w ∈ generateWordChain envErr, chainWordOk w = true)
    ∧ (generateWordChain envErr).Pairwise (fun a b => jsLower a ≠ jsLower b) :=
  c1_chain_valid envErr envErr_valid

end WordChainGame
